import Mathlib

/-!
Verification of the incremental suggestion-reconciliation engine of the
writing-assistant repository (hook `useTextAnalysis`, file `src/unnamed/part_008`).

The document text and all substrings are modelled as `List Char`; JavaScript
`String.prototype.slice` (with its clamping of out-of-range indices),
`indexOf`, `toLowerCase` (modelled per-character), `trim`, `split` on the
regexes used by the source, and `Math.round` are given explicit shallow
embeddings.  The React hook state is a record `EngineState`; each user-facing
operation of the hook becomes a pure state transformer, returning the new state
together with the analysis run it schedules (if any).  Asynchronous analysis is
split into `startAnalysis` (the synchronous head of `analyzeWithAI`, which
captures a run id, the text and the strict flag) and `handleResponse` (the
continuation that runs when the backend reply arrives).
-/

namespace WR

/-- JS `String.prototype.slice` index normalisation: negative indices count from
the end (clamped at 0), positive ones are clamped at the length. -/
def jsIndex (len : Nat) (i : Int) : Nat :=
  if i < 0 then ((len : Int) + i).toNat else min i.toNat len

/-- JS `text.slice(a, b)` on a list of characters. -/
def jsSlice (l : List Char) (a b : Int) : List Char :=
  (l.take (jsIndex l.length b)).drop (jsIndex l.length a)

/-- JS `text.slice(a)` (one-argument slice, to the end of the string). -/
def jsSliceFrom (l : List Char) (a : Int) : List Char :=
  l.drop (jsIndex l.length a)

/-- JS `toLowerCase`, modelled character-wise (ASCII case mapping). -/
def toLowerL (l : List Char) : List Char := l.map Char.toLower

/-- Whitespace class used by JS `trim` and the `\s` regex class (ASCII part). -/
def isJsWS (c : Char) : Bool :=
  c == ' ' || c == '\t' || c == '\n' || c == '\r' || c.val == 11 || c.val == 12

/-- JS `String.prototype.trim`. -/
def jsTrim (l : List Char) : List Char :=
  ((l.dropWhile isJsWS).reverse.dropWhile isJsWS).reverse

/-- Helper for `firstIdx`: first index at or after `i` where `pat` occurs. -/
def firstIdxAux (pat : List Char) : List Char → Nat → Option Nat
  | [], i => if pat.isEmpty then some i else none
  | c :: t, i =>
    if pat.isPrefixOf (c :: t) then some i else firstIdxAux pat t (i + 1)

/-- JS `hay.indexOf(pat)`, with `none` for `-1`. -/
def firstIdx (hay pat : List Char) : Option Nat := firstIdxAux pat hay 0

/-- JS `hay.includes(pat)`. -/
def jsIncludes (hay pat : List Char) : Bool := (firstIdx hay pat).isSome

/-- JS `arr.slice(-n)`: the last `min n (length arr)` elements. -/
def takeLast (n : Nat) (l : List α) : List α := l.drop (l.length - n)

/-- Worker for `splitRuns`.  `some acc` means a segment is being accumulated
(in reverse); `none` means the scan is inside a separator run whose leading
character has already ended the previous segment. -/
def splitRunsGo (p : Char → Bool) : List Char → Option (List Char) → List (List Char)
  | [], some acc => [acc.reverse]
  | [], none => [[]]
  | c :: r, some acc =>
    if p c then acc.reverse :: splitRunsGo p r none
    else splitRunsGo p r (some (c :: acc))
  | c :: r, none =>
    if p c then splitRunsGo p r none else splitRunsGo p r (some [c])

/-- JS `text.split(regex)` where the regex matches maximal nonempty runs of
characters satisfying `p` (used for `/\s+/` and `/[.!?]+/`). -/
def splitRuns (p : Char → Bool) (l : List Char) : List (List Char) :=
  splitRunsGo p l (some [])

/-- Worker for `splitPara`: a separator is a maximal run of at least two
newline characters (`some acc` and `none` as in `splitRunsGo`). -/
def splitParaGo : List Char → Option (List Char) → List (List Char)
  | [], some acc => [acc.reverse]
  | [], none => [[]]
  | '\n' :: '\n' :: rest, some acc => acc.reverse :: splitParaGo rest none
  | c :: r, some acc => splitParaGo r (some (c :: acc))
  | c :: r, none =>
    if c == '\n' then splitParaGo r none else splitParaGo r (some [c])

/-- JS `text.split(/\n\n+/)`. -/
def splitPara (l : List Char) : List (List Char) := splitParaGo l (some [])

/-- JS `Math.round` on a rational: round half toward positive infinity. -/
def jsRound (q : ℚ) : Int := ⌊q + 1/2⌋

/-- The `WritingStats` record computed by `calculateStats`.  The two reading
time estimates are JS floats, modelled as rationals; the readability score is
rounded to an integer by the source. -/
structure WritingStats where
  wordCount : Nat
  characterCount : Nat
  sentenceCount : Nat
  paragraphCount : Nat
  readingTime : ℚ
  speakingTime : ℚ
  readabilityScore : Int
deriving DecidableEq

/-- `calculateStats` (part_008 lines 6-33), the local stats computation. -/
def calculateStats (text : List Char) : WritingStats :=
  let trimmed := jsTrim text
  let words := (splitRuns isJsWS trimmed).filter (fun w => !w.isEmpty)
  let wordCount := if !trimmed.isEmpty then words.length else 0
  let characterCount := text.length
  let sentences :=
    (splitRuns (fun c => c == '.' || c == '!' || c == '?') text).filter
      (fun s => !(jsTrim s).isEmpty)
  let sentenceCount := sentences.length
  let paragraphs := (splitPara text).filter (fun p => !(jsTrim p).isEmpty)
  let paragraphCount := paragraphs.length
  let readingTime : ℚ := (wordCount : ℚ) / 225
  let speakingTime : ℚ := (wordCount : ℚ) / 130
  let avgSentenceLength : ℚ :=
    if sentenceCount > 0 then (wordCount : ℚ) / (sentenceCount : ℚ) else 0
  let avgWordLength : ℚ :=
    if wordCount > 0 then (characterCount : ℚ) / (wordCount : ℚ) else 0
  let readabilityScore : ℚ :=
    max 0 (min 100 (100 - avgSentenceLength * (3/2) - avgWordLength * 5 + 50))
  { wordCount := wordCount
    characterCount := characterCount
    sentenceCount := sentenceCount
    paragraphCount := paragraphCount
    readingTime := readingTime
    speakingTime := speakingTime
    readabilityScore := jsRound readabilityScore }

/-- The all-zero stats record the hook uses for blank text and on reset. -/
def zeroStats : WritingStats := ⟨0, 0, 0, 0, 0, 0, 0⟩

/-- Why an analysis run was requested (the `reason` option of `analyzeWithAI`). -/
inductive Reason where
  | typing
  | post_accept
  | manual
deriving DecidableEq

/-- A validated suggestion held in the hook's `suggestions` state.  The source
builds ids of the form `ai-<timestamp>-<idx>`; they are opaque and only
compared for equality, so they are modelled as naturals. -/
structure Suggestion where
  id : Nat
  type : String
  original : List Char
  replacement : List Char
  message : String
  startIndex : Int
  endIndex : Int
deriving DecidableEq

/-- An entry of `acceptedEditsRef` (the fields picked in the source). -/
structure AcceptedEdit where
  type : String
  original : List Char
  replacement : List Char
  message : String
deriving DecidableEq

/-- The hook state: React state plus the refs of `useTextAnalysis`. -/
structure EngineState where
  text : List Char
  suggestions : List Suggestion
  stats : WritingStats
  overallScore : Int
  isAnalyzing : Bool
  lastAnalyzedText : List Char
  acceptedEdits : List AcceptedEdit
  analysisPass : Nat
  latestRunId : Nat
deriving DecidableEq

/-- An analysis run scheduled by an operation (the `setTimeout` callbacks). -/
structure Scheduled where
  text : List Char
  reason : Reason
deriving DecidableEq

/-- The accepted-edit record extracted from a suggestion. -/
def toAcceptedEdit (s : Suggestion) : AcceptedEdit :=
  ⟨s.type, s.original, s.replacement, s.message⟩

/-- The re-anchoring step shared by `applySuggestion` and
`acceptAllSuggestions` (part_008 lines 221-238 and 349-362): try the recorded
span first (case-insensitively), else a case-insensitive first-occurrence
search; `none` means the suggestion is unlocatable and must be dropped. -/
def reanchor (text : List Char) (s : Suggestion) : Option (Int × Int) :=
  let textAtOriginalPos := jsSlice text s.startIndex s.endIndex
  if toLowerL textAtOriginalPos = toLowerL s.original then
    some (s.startIndex, s.endIndex)
  else
    match firstIdx (toLowerL text) (toLowerL s.original) with
    | some i => some ((i : Int), (i : Int) + (s.original.length : Int))
    | none => none

/-- Offset adjustment applied to the remaining suggestions after a single
apply (part_008 lines 275-284). -/
def shiftAfter (startIdx lengthDiff : Int) (s : Suggestion) : Suggestion :=
  if s.startIndex > startIdx then
    { s with startIndex := s.startIndex + lengthDiff
             endIndex := s.endIndex + lengthDiff }
  else s

/-- `applySuggestion` (part_008 lines 215-288). -/
def applySuggestion (st : EngineState) (sugg : Suggestion) :
    EngineState × Option Scheduled :=
  match reanchor st.text sugg with
  | none =>
    ({ st with suggestions := st.suggestions.filter (fun s => s.id != sugg.id) },
     none)
  | some (startIdx, endIdx) =>
    let newAccepted := takeLast 50 (st.acceptedEdits ++ [toAcceptedEdit sugg])
    let lengthDiff : Int :=
      (sugg.replacement.length : Int) - (sugg.original.length : Int)
    let newText :=
      jsSlice st.text 0 startIdx ++ sugg.replacement ++ jsSliceFrom st.text endIdx
    let remaining := st.suggestions.filter (fun s => s.id != sugg.id)
    if remaining.isEmpty then
      ({ st with text := newText
                 lastAnalyzedText := []
                 suggestions := []
                 acceptedEdits := newAccepted
                 analysisPass := st.analysisPass + 1 },
       some ⟨newText, Reason.post_accept⟩)
    else
      ({ st with text := newText
                 lastAnalyzedText := newText
                 suggestions := remaining.map (shiftAfter startIdx lengthDiff)
                 acceptedEdits := newAccepted },
       none)

/-- `dismissSuggestion` (part_008 lines 290-307). -/
def dismissSuggestion (st : EngineState) (sugg : Suggestion) :
    EngineState × Option Scheduled :=
  let remaining := st.suggestions.filter (fun s => s.id != sugg.id)
  if remaining.isEmpty then
    ({ st with suggestions := remaining, lastAnalyzedText := [] },
     some ⟨st.text, Reason.manual⟩)
  else
    ({ st with suggestions := remaining }, none)

/-- Insertion into a list sorted by descending `startIndex` (stable: an
element is placed before later elements with an equal key). -/
def insertDesc (s : Suggestion) : List Suggestion → List Suggestion
  | [] => [s]
  | t :: ts =>
    if s.startIndex ≥ t.startIndex then s :: t :: ts else t :: insertDesc s ts

/-- The sort `[...suggestions].sort((a, b) => b.startIndex - a.startIndex)`
used by `acceptAllSuggestions`, modelled as a stable insertion sort. -/
def sortDesc (l : List Suggestion) : List Suggestion := l.foldr insertDesc []

/-- One iteration of the `acceptAllSuggestions` loop body (part_008 lines
348-365): re-anchor against the current text, skip on failure, else splice the
replacement in. -/
def acceptStep (cur : List Char) (sugg : Suggestion) : List Char :=
  match reanchor cur sugg with
  | none => cur
  | some (a, b) => jsSlice cur 0 a ++ sugg.replacement ++ jsSliceFrom cur b

/-- `acceptAllSuggestions` (part_008 lines 327-374). -/
def acceptAllSuggestions (st : EngineState) : EngineState × Option Scheduled :=
  if st.suggestions.isEmpty then (st, none)
  else
    let newAccepted :=
      takeLast 50 (st.acceptedEdits ++ st.suggestions.map toAcceptedEdit)
    let finalText := (sortDesc st.suggestions).foldl acceptStep st.text
    ({ st with text := finalText
               suggestions := []
               lastAnalyzedText := []
               acceptedEdits := newAccepted
               analysisPass := st.analysisPass + 1 },
     some ⟨finalText, Reason.post_accept⟩)

/-- Applying the pending suggestion carrying a given id (how the UI invokes a
single apply: the clicked card passes the current pending record). -/
def applyById (st : EngineState) (i : Nat) : EngineState :=
  match st.suggestions.find? (fun s => s.id == i) with
  | some s => (applySuggestion st s).1
  | none => st

/-- An untyped JS value, as far as the validation filter inspects one. -/
inductive JsVal where
  | str : List Char → JsVal
  | num : Int → JsVal
  | bool : Bool → JsVal
  | null : JsVal
  | undef : JsVal
deriving DecidableEq

/-- JS truthiness for the values of `JsVal`. -/
def JsVal.truthy : JsVal → Bool
  | .str s => !s.isEmpty
  | .num n => n != 0
  | .bool b => b
  | .null => false
  | .undef => false

/-- `typeof v === 'string'`. -/
def JsVal.isStr : JsVal → Bool
  | .str _ => true
  | _ => false

/-- The character content of a value; `[]` for non-strings (only used after
the filter has established the value is a truthy string). -/
def JsVal.asChars : JsVal → List Char
  | .str s => s
  | _ => []

/-- A raw candidate from the backend response, before validation.  Absent
fields are `none`; `startIndex`/`endIndex` are read with `?? 0`. -/
structure RawSuggestion where
  type : Option String
  original : JsVal
  replacement : JsVal
  message : Option String
  startIndex : Option Int
  endIndex : Option Int
deriving DecidableEq

/-- JS `v || d` for optional string fields (an empty string is falsy). -/
def jsOrStr (v : Option String) (d : String) : String :=
  match v with
  | some s => if s = "" then d else s
  | none => d

/-- The validation filter of `analyzeWithAI` (part_008 lines 132-153). -/
def validFilter (text : List Char) (s : RawSuggestion) : Bool :=
  let startIdx := s.startIndex.getD 0
  let endIdx := s.endIndex.getD 0
  if !s.original.truthy || !s.replacement.truthy then false
  else if !s.original.isStr || !s.replacement.isStr then false
  else if jsTrim s.original.asChars = jsTrim s.replacement.asChars then false
  else if startIdx < 0 || endIdx > (text.length : Int) || endIdx ≤ startIdx then
    false
  else
    let textAtLocation := jsSlice text startIdx endIdx
    let o := toLowerL s.original.asChars
    let t := toLowerL textAtLocation
    let o3 := o.take 3
    let t3 := t.take 3
    t = o || (!o3.isEmpty && jsIncludes t o3) || (!t3.isEmpty && jsIncludes o t3)

/-- The normalisation map of `analyzeWithAI` (part_008 lines 154-162); `idx`
is the position in the filtered array and stands in for the generated id. -/
def buildSuggestion (idx : Nat) (s : RawSuggestion) : Suggestion :=
  { id := idx
    type := jsOrStr s.type "grammar"
    original := s.original.asChars
    replacement := s.replacement.asChars
    message := jsOrStr s.message "Suggestion from AI"
    startIndex := s.startIndex.getD 0
    endIndex := s.endIndex.getD 0 }

/-- `validSuggestions`: filter then map with the index in the filtered list. -/
def validateSuggestions (raws : List RawSuggestion) (text : List Char) :
    List Suggestion :=
  ((raws.filter (validFilter text)).enum).map (fun p => buildSuggestion p.1 p.2)

/-- The strict flag computation of `analyzeWithAI` (part_008 line 103). -/
def strictFlag (pass : Nat) (reason : Reason) : Bool :=
  decide (pass > 0) || decide (reason = Reason.post_accept)

/-- The data captured by one invocation of `analyzeWithAI`: its run id, the
text snapshot it analyses, and the strict flag. -/
structure RequestCtx where
  runId : Nat
  textToAnalyze : List Char
  strict : Bool
deriving DecidableEq

/-- The synchronous head of `analyzeWithAI` (part_008 lines 77-114): bump the
run id; on blank text reset the visible analysis state and issue no request,
else refresh stats, raise the analyzing flag and issue a request. -/
def startAnalysis (st : EngineState) (t : List Char) (reason : Reason) :
    EngineState × Option RequestCtx :=
  let runId := st.latestRunId + 1
  let st1 := { st with latestRunId := runId }
  if (jsTrim t).isEmpty then
    ({ st1 with suggestions := []
                stats := zeroStats
                overallScore := 100
                isAnalyzing := false },
     none)
  else
    ({ st1 with stats := calculateStats t, isAnalyzing := true },
     some ⟨runId, t, strictFlag st.analysisPass reason⟩)

/-- A backend reply: a transport/error failure, or a payload whose
`suggestions` array and numeric `overallScore` may each be absent. -/
inductive BackendResponse where
  | failure
  | ok (suggestions : Option (List RawSuggestion)) (overallScore : Option Int)
deriving DecidableEq

/-- `setAnalyzingSafe` (part_008 lines 78-80): only the latest run may touch
the analyzing flag. -/
def setAnalyzingSafe (ctx : RequestCtx) (st : EngineState) (v : Bool) :
    EngineState :=
  if ctx.runId == st.latestRunId then { st with isAnalyzing := v } else st

/-- The response continuation of `analyzeWithAI` (part_008 lines 116-180):
errors are swallowed; a reply whose snapshot no longer equals the live text is
discarded; otherwise the validated (and, in strict mode, style/clarity-free)
suggestions and the score are stored. -/
def handleResponse (st : EngineState) (ctx : RequestCtx)
    (resp : BackendResponse) : EngineState :=
  match resp with
  | .failure => setAnalyzingSafe ctx st false
  | .ok dataSuggs dataScore =>
    if st.text ≠ ctx.textToAnalyze then setAnalyzingSafe ctx st false
    else
      let raws := dataSuggs.getD []
      let valids := validateSuggestions raws ctx.textToAnalyze
      let finals :=
        if ctx.strict then
          valids.filter (fun s => s.type != "style" && s.type != "clarity")
        else valids
      let st1 :=
        { st with suggestions := finals
                  overallScore :=
                    match dataScore with
                    | some sc => sc
                    | none => if finals.length != 0 then 85 else 100 }
      setAnalyzingSafe ctx st1 false

/-! ### Specification-side definitions

Nat-indexed edits and validity predicates used to state and prove the
refinement and invariant claims about `applySuggestion` and
`acceptAllSuggestions`. -/

/-- A concrete text edit: replace the span `[a, b)` by `r`. -/
structure NEdit where
  a : Nat
  b : Nat
  r : List Char
deriving DecidableEq

/-- Apply one edit at its recorded position. -/
def applyNEdit (t : List Char) (e : NEdit) : List Char :=
  t.take e.a ++ e.r ++ t.drop e.b

/-- Apply a list of edits left to right, each at its recorded position. -/
def foldNEdits (t : List Char) (es : List NEdit) : List Char :=
  es.foldl applyNEdit t

/-- The edit a suggestion denotes (at its recorded, clamped-to-`Nat` span). -/
def toNEdit (s : Suggestion) : NEdit :=
  ⟨s.startIndex.toNat, s.endIndex.toNat, s.replacement⟩

/-- Slice with `Nat` indices: the characters in `[a, b)`. -/
def sliceN (t : List Char) (a b : Nat) : List Char := (t.take b).drop a

/-- A suggestion whose recorded span is in bounds, nonempty, and whose text
case-insensitively matches its `original` — the offset-validity invariant of
the specification. -/
def SpanOK (t : List Char) (s : Suggestion) : Prop :=
  0 ≤ s.startIndex ∧ s.startIndex < s.endIndex ∧ s.endIndex ≤ (t.length : Int) ∧
    toLowerL (sliceN t s.startIndex.toNat s.endIndex.toNat) = toLowerL s.original

instance : DecidablePred (fun p : List Char × Suggestion => SpanOK p.1 p.2) :=
  fun _ => by unfold SpanOK; infer_instance

instance (t : List Char) (s : Suggestion) : Decidable (SpanOK t s) := by
  unfold SpanOK; infer_instance

/-- Two suggestions whose spans do not overlap. -/
def SpansDisjoint (s1 s2 : Suggestion) : Prop :=
  s1.endIndex ≤ s2.startIndex ∨ s2.endIndex ≤ s1.startIndex

instance (s1 s2 : Suggestion) : Decidable (SpansDisjoint s1 s2) := by
  unfold SpansDisjoint; infer_instance

/-- A well-formed pending configuration: distinct ids, pairwise non-overlapping
spans, and every suggestion matching the current text at its recorded span. -/
def Valid (t : List Char) (l : List Suggestion) : Prop :=
  (l.map (fun s => s.id)).Nodup ∧ l.Pairwise SpansDisjoint ∧ ∀ s ∈ l, SpanOK t s

instance (t : List Char) (l : List Suggestion) : Decidable (Valid t l) := by
  unfold Valid; infer_instance

/-- The canonical result of a pending configuration: all recorded edits applied
in descending `startIndex` order. -/
def canonicalText (st : EngineState) : List Char :=
  foldNEdits st.text ((sortDesc st.suggestions).map toNEdit)

/-! ### Concrete example configurations used by witnesses and counterexamples -/

/-- A proposition singling out the raw candidates that claim C6 says must be
rejected: `original`/`replacement` missing or non-string, or equal after
trimming. -/
def BadCandidate (s : RawSuggestion) : Prop :=
  s.original.isStr = false ∨ s.replacement.isStr = false ∨
    jsTrim s.original.asChars = jsTrim s.replacement.asChars

instance (s : RawSuggestion) : Decidable (BadCandidate s) := by
  unfold BadCandidate
  infer_instance

/-- Example: a capitalisation fix on `"abcdef"` at span `[0, 1)`. -/
def wSugg1 : Suggestion := ⟨0, "grammar", "a".toList, "XXX".toList, "cap", 0, 1⟩

/-- Example: a second, disjoint suggestion on `"abcdef"` at span `[3, 4)`. -/
def wSugg2 : Suggestion := ⟨1, "style", "d".toList, "Y".toList, "reword", 3, 4⟩

/-- Example hook state over `"abcdef"` with two disjoint pending suggestions. -/
def wState : EngineState :=
  ⟨"abcdef".toList, [wSugg1, wSugg2], zeroStats, 100, false, [], [], 0, 0⟩

/-- Counterexample input for C1: a suggestion covering all of `"ab"`. -/
def exC1s1 : Suggestion := ⟨0, "grammar", "ab".toList, "X".toList, "fix", 0, 2⟩

/-- Counterexample input for C1: an overlapping suggestion on `"b"`. -/
def exC1s2 : Suggestion := ⟨1, "grammar", "b".toList, "Z".toList, "fix", 1, 2⟩

/-- Counterexample state for C1: two overlapping pending suggestions. -/
def exC1st : EngineState :=
  ⟨"ab".toList, [exC1s1, exC1s2], zeroStats, 100, false, [], [], 0, 0⟩

/-- C2 trace: the raw suggestion carried by the stale response. -/
def exC2raw : RawSuggestion :=
  ⟨none, JsVal.str "hi".toList, JsVal.str "Hi".toList, none, some 0, some 2⟩

/-- C2 trace: initial state with text `"hi"` and no pending suggestions. -/
def exC2st0 : EngineState :=
  ⟨"hi".toList, [], zeroStats, 100, false, [], [], 0, 0⟩

/-- C2 trace: state after request A is issued. -/
def exC2stA : EngineState := (startAnalysis exC2st0 "hi".toList Reason.manual).1

/-- C2 trace: the context captured by request A (run id 1). -/
def exC2ctxA : RequestCtx := ⟨1, "hi".toList, false⟩

/-- C2 trace: state after request B is issued (before either resolves). -/
def exC2stB : EngineState := (startAnalysis exC2stA "hi".toList Reason.manual).1

/-- C2 trace: the context captured by request B (run id 2). -/
def exC2ctxB : RequestCtx := ⟨2, "hi".toList, false⟩

/-- C2 trace: state after B's response (empty suggestion list) is handled. -/
def exC2afterB : EngineState :=
  handleResponse exC2stB exC2ctxB (BackendResponse.ok none none)

/-- C2 trace: state after A's stale response is handled last. -/
def exC2afterA : EngineState :=
  handleResponse exC2afterB exC2ctxA (BackendResponse.ok (some [exC2raw]) (some 42))

/-- A state used by the C2 witness, whose text differs from the in-flight
request's snapshot. -/
def exC2w : EngineState :=
  ⟨"x".toList, [], zeroStats, 77, true, [], [], 0, 5⟩

/-- C4 example suggestion `[0,1) -> "XXX"` from the specification. -/
def exC4s1 : Suggestion := ⟨0, "grammar", "a".toList, "XXX".toList, "m", 0, 1⟩

/-- C4 example suggestion `[3,4) -> "Y"` from the specification. -/
def exC4s2 : Suggestion := ⟨1, "grammar", "d".toList, "Y".toList, "m", 3, 4⟩

/-- C4 example state over `"abcdef"`. -/
def exC4st : EngineState :=
  ⟨"abcdef".toList, [exC4s1, exC4s2], zeroStats, 100, false, [], [], 0, 0⟩

/-- C7 counterexample: the only pending suggestion. -/
def exC7s : Suggestion := ⟨0, "grammar", "a".toList, "A".toList, "m", 0, 1⟩

/-- C7 counterexample state: one pending suggestion, strictness still 0. -/
def exC7st : EngineState :=
  ⟨"ab".toList, [exC7s], zeroStats, 100, false, "ab".toList, [], 0, 0⟩

/-- C8 witness: a suggestion whose original text occurs nowhere in `"xyz"`. -/
def exC8s : Suggestion := ⟨0, "grammar", "q".toList, "r".toList, "m", 0, 1⟩

/-- C8 witness: a second, locatable pending suggestion. -/
def exC8s2 : Suggestion := ⟨1, "grammar", "x".toList, "X".toList, "m", 0, 1⟩

/-- C8 witness state over `"xyz"`. -/
def exC8st : EngineState :=
  ⟨"xyz".toList, [exC8s, exC8s2], zeroStats, 100, false, [], [], 0, 0⟩

/-- C9 witness: an arbitrary state fed a blank analysis request. -/
def exC9st : EngineState :=
  ⟨"old".toList, [wSugg1], zeroStats, 85, true, [], [], 2, 7⟩

/-- C6 witness: a raw candidate whose original and replacement agree after
trimming. -/
def exC6bad : RawSuggestion :=
  ⟨none, JsVal.str "a".toList, JsVal.str " a ".toList, none, some 0, some 1⟩

/-! ### Slice and splice lemmas -/

theorem take_min_len (l : List α) (n : Nat) : l.take (min n l.length) = l.take n := by
  rcases Nat.le_total n l.length with h | h
  · rw [Nat.min_eq_left h]
  · rw [Nat.min_eq_right h, List.take_length, List.take_of_length_le h]

theorem drop_min_of_len_le (X : List α) (a len : Nat) (h : X.length ≤ len) :
    X.drop (min a len) = X.drop a := by
  rcases Nat.le_total a len with h' | h'
  · rw [Nat.min_eq_left h']
  · rw [Nat.min_eq_right h', List.drop_eq_nil_of_le h,
      List.drop_eq_nil_of_le (le_trans h h')]

theorem jsSlice_nonneg (t : List Char) (i j : Int) (hi : 0 ≤ i) (hj : 0 ≤ j) :
    jsSlice t i j = sliceN t i.toNat j.toNat := by
  unfold jsSlice jsIndex sliceN
  rw [if_neg (by omega), if_neg (by omega), take_min_len]
  exact drop_min_of_len_le _ _ _ (by simp [List.length_take])

theorem jsSliceFrom_nonneg (t : List Char) (i : Int) (hi : 0 ≤ i) :
    jsSliceFrom t i = t.drop i.toNat := by
  unfold jsSliceFrom jsIndex
  rw [if_neg (by omega)]
  exact drop_min_of_len_le _ _ _ le_rfl

theorem toLowerL_length (l : List Char) : (toLowerL l).length = l.length := by
  simp [toLowerL]

theorem length_sliceN (t : List Char) (a b : Nat) (hab : a ≤ b) (hb : b ≤ t.length) :
    (sliceN t a b).length = b - a := by
  simp [sliceN, List.length_take]
  omega

theorem take_append_left (P L : List α) (n : Nat) (h : n ≤ P.length) :
    (P ++ L).take n = P.take n := by
  rw [List.take_append_eq_append_take, Nat.sub_eq_zero_of_le h]
  simp

theorem drop_append_left (P L : List α) (n : Nat) (h : n ≤ P.length) :
    (P ++ L).drop n = P.drop n ++ L := by
  rw [List.drop_append_eq_append_drop, Nat.sub_eq_zero_of_le h]
  simp

theorem take_append_shift (P L : List α) (v : Nat) :
    (P ++ L).take (P.length + v) = P ++ L.take v := by
  rw [List.take_append_eq_append_take, List.take_of_length_le (by omega),
    Nat.add_sub_cancel_left]

theorem drop_append_shift (P L : List α) (u : Nat) :
    (P ++ L).drop (P.length + u) = L.drop u := by
  rw [List.drop_append_eq_append_drop, List.drop_eq_nil_of_le (by omega),
    Nat.add_sub_cancel_left]
  simp

theorem sliceN_append_shift (P L : List Char) (u v : Nat) :
    sliceN (P ++ L) (P.length + u) (P.length + v) = sliceN L u v := by
  unfold sliceN
  rw [take_append_shift, drop_append_shift]

theorem length_applyNEdit (t : List Char) (e : NEdit) (hab : e.a ≤ e.b)
    (hb : e.b ≤ t.length) :
    (applyNEdit t e).length = e.a + e.r.length + (t.length - e.b) := by
  simp [applyNEdit, List.length_take]
  omega

theorem sliceN_replace_before (t : List Char) (a b : Nat) (r : List Char)
    (hab : a ≤ b) (hb : b ≤ t.length) (a' b' : Nat) (h : b' ≤ a) :
    sliceN (applyNEdit t ⟨a, b, r⟩) a' b' = sliceN t a' b' := by
  simp only [applyNEdit, sliceN]
  rw [List.append_assoc,
    take_append_left _ _ _ (show b' ≤ (t.take a).length by simp [List.length_take]; omega),
    List.take_take, Nat.min_eq_left h]

theorem sliceN_replace_after (t : List Char) (a b : Nat) (r : List Char)
    (hab : a ≤ b) (hb : b ≤ t.length) (a' b' : Nat) (h1 : b ≤ a') :
    sliceN (applyNEdit t ⟨a, b, r⟩) (a + r.length + (a' - b)) (a + r.length + (b' - b)) =
      sliceN t a' b' := by
  have hsplit : applyNEdit t ⟨a, b, r⟩ = (t.take a ++ r) ++ t.drop b := by
    simp [applyNEdit]
  have hP : (t.take a ++ r).length = a + r.length := by
    simp [List.length_take]
    omega
  rw [hsplit, ← hP, sliceN_append_shift]
  simp only [sliceN]
  rw [← List.drop_take b' b t, List.drop_drop]
  congr 1
  omega

theorem applyNEdit_comm (t : List Char) (a b : Nat) (r : List Char)
    (a2 b2 : Nat) (r2 : List Char) (hab : a ≤ b) (h : b ≤ a2) (h2 : a2 ≤ b2)
    (hb2 : b2 ≤ t.length) :
    applyNEdit (applyNEdit t ⟨a2, b2, r2⟩) ⟨a, b, r⟩ =
      applyNEdit (applyNEdit t ⟨a, b, r⟩)
        ⟨a + r.length + (a2 - b), a + r.length + (b2 - b), r2⟩ := by
  have ha2 : (t.take a2).length = a2 := by simp [List.length_take]; omega
  have hP : (t.take a ++ r).length = a + r.length := by
    simp [List.length_take]
    omega
  have lhs :
      applyNEdit (applyNEdit t ⟨a2, b2, r2⟩) ⟨a, b, r⟩ =
        t.take a ++ r ++ ((t.take a2).drop b ++ (r2 ++ t.drop b2)) := by
    show (t.take a2 ++ r2 ++ t.drop b2).take a ++ r ++
        (t.take a2 ++ r2 ++ t.drop b2).drop b = _
    rw [List.append_assoc (t.take a2),
      take_append_left _ _ _ (show a ≤ (t.take a2).length by omega),
      List.take_take, Nat.min_eq_left (le_trans hab h),
      drop_append_left _ _ _ (show b ≤ (t.take a2).length by omega)]
  have rhs :
      applyNEdit (applyNEdit t ⟨a, b, r⟩)
          ⟨a + r.length + (a2 - b), a + r.length + (b2 - b), r2⟩ =
        t.take a ++ r ++ ((t.take a2).drop b ++ (r2 ++ t.drop b2)) := by
    show (t.take a ++ r ++ t.drop b).take (a + r.length + (a2 - b)) ++ r2 ++
        (t.take a ++ r ++ t.drop b).drop (a + r.length + (b2 - b)) = _
    rw [← hP, take_append_shift, drop_append_shift, List.drop_drop,
      ← List.drop_take a2 b t]
    have hb2' : b + (b2 - b) = b2 := by omega
    rw [hb2']
    simp [List.append_assoc]
  rw [lhs, rhs]

/-! ### Behaviour of `reanchor` and `applySuggestion` on matching spans -/

theorem spanOK_nat (t : List Char) (s : Suggestion) (h : SpanOK t s) :
    s.startIndex = (s.startIndex.toNat : Int) ∧ s.endIndex = (s.endIndex.toNat : Int) ∧
    s.startIndex.toNat < s.endIndex.toNat ∧ s.endIndex.toNat ≤ t.length ∧
    s.endIndex.toNat - s.startIndex.toNat = s.original.length := by
  obtain ⟨h0, hlt, hle, hm⟩ := h
  have hlen := congrArg List.length hm
  rw [toLowerL_length, toLowerL_length,
    length_sliceN _ _ _ (by omega) (by omega)] at hlen
  exact ⟨by omega, by omega, by omega, by omega, hlen⟩

theorem reanchor_fast (t : List Char) (s : Suggestion) (h : SpanOK t s) :
    reanchor t s = some (s.startIndex, s.endIndex) := by
  obtain ⟨h0, hlt, hle, hm⟩ := h
  unfold reanchor
  rw [jsSlice_nonneg t _ _ h0 (by omega)]
  simp [hm]

theorem applySuggestion_fast (st : EngineState) (sugg : Suggestion)
    (h : SpanOK st.text sugg) :
    (applySuggestion st sugg).1.text = applyNEdit st.text (toNEdit sugg) ∧
    (applySuggestion st sugg).1.suggestions =
      (st.suggestions.filter (fun s => s.id != sugg.id)).map
        (shiftAfter sugg.startIndex
          ((sugg.replacement.length : Int) - (sugg.original.length : Int))) := by
  have hre := reanchor_fast _ _ h
  obtain ⟨h0, hlt, hle, hm⟩ := h
  have htext : jsSlice st.text 0 sugg.startIndex ++ sugg.replacement ++
      jsSliceFrom st.text sugg.endIndex = applyNEdit st.text (toNEdit sugg) := by
    rw [jsSlice_nonneg _ _ _ le_rfl h0, jsSliceFrom_nonneg _ _ (by omega)]
    simp [applyNEdit, toNEdit, sliceN]
  unfold applySuggestion
  rw [hre]
  by_cases hempty : (st.suggestions.filter (fun s => s.id != sugg.id)).isEmpty
  · rw [List.isEmpty_iff] at hempty
    simp [hempty, htext]
  · rw [List.isEmpty_iff] at hempty
    simp [hempty, htext]

/-! ### Commuting a low edit past a block of higher, disjoint edits -/

theorem fold_comm (a b : Nat) (r : List Char) (hab : a ≤ b) :
    ∀ (H : List NEdit) (t : List Char), b ≤ t.length →
      (∀ e ∈ H, b ≤ e.a ∧ e.a ≤ e.b ∧ e.b ≤ t.length) →
      H.Pairwise (fun x y => y.b ≤ x.a) →
      foldNEdits t (H ++ [⟨a, b, r⟩]) =
        foldNEdits (applyNEdit t ⟨a, b, r⟩)
          (H.map (fun e => ⟨a + r.length + (e.a - b), a + r.length + (e.b - b), e.r⟩)) := by
  intro H
  induction H with
  | nil => intro t hbt hH hP; simp [foldNEdits, applyNEdit]
  | cons x H' ih =>
    intro t hbt hH hP
    have hx := hH x (List.mem_cons_self x H')
    have hlen' : (applyNEdit t x).length = x.a + x.r.length + (t.length - x.b) :=
      length_applyNEdit t x hx.2.1 hx.2.2
    have hcons := List.pairwise_cons.mp hP
    have hH' : ∀ e ∈ H', b ≤ e.a ∧ e.a ≤ e.b ∧ e.b ≤ (applyNEdit t x).length := by
      intro e he
      have h1 := hH e (List.mem_cons_of_mem _ he)
      have h2 := hcons.1 e he
      exact ⟨h1.1, h1.2.1, by omega⟩
    have IH := ih (applyNEdit t x) (by omega) hH' hcons.2
    simp only [List.cons_append, foldNEdits, List.foldl_cons, List.map_cons] at IH ⊢
    rw [IH]
    have hcomm := applyNEdit_comm t a b r x.a x.b x.r hab hx.1 hx.2.1 hx.2.2
    rw [show (⟨x.a, x.b, x.r⟩ : NEdit) = x from rfl] at hcomm
    rw [hcomm]

/-! ### The descending sort used by `acceptAllSuggestions` -/

theorem insertDesc_perm (s : Suggestion) (l : List Suggestion) :
    (insertDesc s l).Perm (s :: l) := by
  induction l with
  | nil => exact List.Perm.refl _
  | cons t ts ih =>
    unfold insertDesc
    by_cases hc : s.startIndex ≥ t.startIndex
    · rw [if_pos hc]
    · rw [if_neg hc]
      exact (ih.cons t).trans (List.Perm.swap s t ts)

theorem sortDesc_perm (l : List Suggestion) : (sortDesc l).Perm l := by
  induction l with
  | nil => exact List.Perm.refl _
  | cons h t ih =>
    show (insertDesc h (sortDesc t)).Perm _
    exact (insertDesc_perm _ _).trans (ih.cons h)

theorem insertDesc_sorted (s : Suggestion) (l : List Suggestion)
    (h : l.Pairwise (fun x y => y.startIndex ≤ x.startIndex)) :
    (insertDesc s l).Pairwise (fun x y => y.startIndex ≤ x.startIndex) := by
  induction l with
  | nil => simp [insertDesc]
  | cons t ts ih =>
    have hcons := List.pairwise_cons.mp h
    unfold insertDesc
    by_cases hc : s.startIndex ≥ t.startIndex
    · rw [if_pos hc]
      refine List.pairwise_cons.mpr ⟨?_, h⟩
      intro y hy
      rcases List.mem_cons.mp hy with rfl | hy'
      · exact hc
      · exact le_trans (hcons.1 y hy') hc
    · rw [if_neg hc]
      refine List.pairwise_cons.mpr ⟨?_, ih hcons.2⟩
      intro y hy
      rcases List.mem_cons.mp ((insertDesc_perm s ts).mem_iff.mp hy) with rfl | h2
      · omega
      · exact hcons.1 y h2

theorem sortDesc_sorted (l : List Suggestion) :
    (sortDesc l).Pairwise (fun x y => y.startIndex ≤ x.startIndex) := by
  induction l with
  | nil => simp [sortDesc]
  | cons h t ih => exact insertDesc_sorted h (sortDesc t) ih

theorem sortDesc_desc_disjoint (t : List Char) (l : List Suggestion) (hV : Valid t l) :
    (sortDesc l).Pairwise (fun x y => y.endIndex ≤ x.startIndex) := by
  have hperm := sortDesc_perm l
  have hsorted := sortDesc_sorted l
  have hdisj : (sortDesc l).Pairwise SpansDisjoint :=
    (hperm.pairwise_iff (fun hxy => hxy.symm)).mpr hV.2.1
  have hOK : ∀ s ∈ sortDesc l, SpanOK t s := fun s hs => hV.2.2 s (hperm.subset hs)
  refine (hsorted.and hdisj).imp_of_mem ?_
  intro x y hx hy hxy
  have hxOK := hOK x hx
  have hyOK := hOK y hy
  rcases hxy.2 with h1 | h2
  · exfalso
    have := hxOK.2.1
    have := hyOK.2.1
    have := hxy.1
    omega
  · exact h2

theorem desc_disjoint_strict (t : List Char) (l : List Suggestion)
    (hOK : ∀ s ∈ l, SpanOK t s)
    (h : l.Pairwise (fun x y => y.endIndex ≤ x.startIndex)) :
    l.Pairwise (fun x y => y.startIndex < x.startIndex) := by
  refine h.imp_of_mem ?_
  intro x y _ hy hle
  exact lt_of_lt_of_le (hOK y hy).2.1 hle

theorem perm_sorted_strict_eq (l1 l2 : List Suggestion) (hp : l1.Perm l2)
    (h1 : l1.Pairwise (fun x y => y.startIndex < x.startIndex))
    (h2 : l2.Pairwise (fun x y => y.startIndex < x.startIndex)) : l1 = l2 := by
  haveI : IsAntisymm Suggestion (fun x y => y.startIndex < x.startIndex) :=
    ⟨fun a b hab hba => absurd (lt_trans hab hba) (lt_irrefl _)⟩
  exact List.eq_of_perm_of_sorted hp h1 h2

/-! ### The `acceptAllSuggestions` loop on a valid configuration -/

theorem acceptStep_fast (t : List Char) (s : Suggestion) (h : SpanOK t s) :
    acceptStep t s = applyNEdit t (toNEdit s) := by
  have hre := reanchor_fast _ _ h
  obtain ⟨h0, hlt, hle, hm⟩ := h
  unfold acceptStep
  rw [hre]
  show jsSlice t 0 s.startIndex ++ s.replacement ++ jsSliceFrom t s.endIndex = _
  rw [jsSlice_nonneg _ _ _ le_rfl h0, jsSliceFrom_nonneg _ _ (by omega)]
  simp [applyNEdit, toNEdit, sliceN]

theorem foldAccept_eq (l : List Suggestion) : ∀ t : List Char,
    (∀ s ∈ l, SpanOK t s) →
    l.Pairwise (fun x y => y.endIndex ≤ x.startIndex) →
    l.foldl acceptStep t = foldNEdits t (l.map toNEdit) := by
  induction l with
  | nil => intro t _ _; simp [foldNEdits]
  | cons h tl ih =>
    intro t hOK hP
    have hh := hOK h (List.mem_cons_self h tl)
    have hnat := spanOK_nat t h hh
    have hcons := List.pairwise_cons.mp hP
    have hOK' : ∀ s ∈ tl, SpanOK (applyNEdit t (toNEdit h)) s := by
      intro s hs
      obtain ⟨s0, slt, sle, sm⟩ := hOK s (List.mem_cons_of_mem _ hs)
      have hrel := hcons.1 s hs
      have hlen := length_applyNEdit t (toNEdit h) (by simp [toNEdit]; omega)
        (by simp [toNEdit]; omega)
      simp only [toNEdit] at hlen
      refine ⟨s0, slt, ?_, ?_⟩
      · simp only [toNEdit]
        omega
      · rw [show toNEdit h = ⟨h.startIndex.toNat, h.endIndex.toNat, h.replacement⟩ from rfl,
          sliceN_replace_before t _ _ _ (by omega) (by omega) _ _ (by omega)]
        exact sm
    rw [List.foldl_cons, acceptStep_fast t h hh, List.map_cons]
    rw [ih (applyNEdit t (toNEdit h)) hOK' hcons.2]
    simp [foldNEdits]

/-! ### Effect of a single apply on the remaining suggestions -/

theorem filter_id_ne_eq_erase (l : List Suggestion) (sugg : Suggestion)
    (hmem : sugg ∈ l) (hnodup : (l.map (fun s => s.id)).Nodup) :
    l.filter (fun s => s.id != sugg.id) = l.erase sugg := by
  induction l with
  | nil => rfl
  | cons h t ih =>
    have hn := List.nodup_cons.mp hnodup
    obtain heq | hmem' := List.mem_cons.mp hmem
    · subst heq
      rw [List.erase_cons_head, List.filter_cons]
      have hself : (sugg.id != sugg.id) = false := by simp
      rw [hself]
      simp only [Bool.false_eq_true, if_false]
      apply List.filter_eq_self.mpr
      intro a ha
      have hane : ¬a.id = sugg.id := by
        intro hid2
        apply hn.1
        show sugg.id ∈ List.map (fun s => s.id) t
        rw [← hid2]
        exact List.mem_map_of_mem (fun s => s.id) ha
      simpa using hane
    · have hid : ¬h.id = sugg.id := by
        intro hip
        apply hn.1
        show h.id ∈ List.map (fun s => s.id) t
        rw [hip]
        exact List.mem_map_of_mem (fun s => s.id) hmem'
      rw [List.filter_cons, if_pos (by simpa using hid),
        List.erase_cons_tail (by intro hh; exact hid (by rw [eq_of_beq hh])),
        ih hmem' hn.2]

theorem shiftAfter_startIndex (a d : Int) (s : Suggestion) :
    (shiftAfter a d s).startIndex =
      if s.startIndex > a then s.startIndex + d else s.startIndex := by
  unfold shiftAfter
  split <;> rfl

theorem shiftAfter_endIndex (a d : Int) (s : Suggestion) :
    (shiftAfter a d s).endIndex =
      if s.startIndex > a then s.endIndex + d else s.endIndex := by
  unfold shiftAfter
  split <;> simp_all

theorem shiftAfter_original (a d : Int) (s : Suggestion) :
    (shiftAfter a d s).original = s.original := by
  unfold shiftAfter
  split <;> rfl

theorem shiftAfter_id (a d : Int) (s : Suggestion) :
    (shiftAfter a d s).id = s.id := by
  unfold shiftAfter
  split <;> rfl

theorem shift_preserves_spanOK (t : List Char) (sugg s : Suggestion)
    (hsugg : SpanOK t sugg) (hs : SpanOK t s) (hd : SpansDisjoint s sugg) :
    SpanOK (applyNEdit t (toNEdit sugg))
      (shiftAfter sugg.startIndex
        ((sugg.replacement.length : Int) - (sugg.original.length : Int)) s) := by
  obtain ⟨e1, e2, l1, l2, hlen⟩ := spanOK_nat t sugg hsugg
  obtain ⟨f1, f2, m1, m2, hlen2⟩ := spanOK_nat t s hs
  obtain ⟨s0, slt, sle, sm⟩ := hs
  have hnewlen := length_applyNEdit t (toNEdit sugg) (by simp [toNEdit]; omega)
    (by simp [toNEdit]; omega)
  simp only [toNEdit] at hnewlen
  unfold SpanOK
  simp only [shiftAfter_startIndex, shiftAfter_endIndex, shiftAfter_original, toNEdit]
  by_cases hc : s.startIndex > sugg.startIndex
  · rw [if_pos hc, if_pos hc]
    have hge : sugg.endIndex ≤ s.startIndex := by
      rcases hd with h1 | h2
      · exfalso; omega
      · exact h2
    have ha' : (s.startIndex +
        ((sugg.replacement.length : Int) - (sugg.original.length : Int))).toNat =
        sugg.startIndex.toNat + sugg.replacement.length +
          (s.startIndex.toNat - sugg.endIndex.toNat) := by omega
    have hb' : (s.endIndex +
        ((sugg.replacement.length : Int) - (sugg.original.length : Int))).toNat =
        sugg.startIndex.toNat + sugg.replacement.length +
          (s.endIndex.toNat - sugg.endIndex.toNat) := by omega
    refine ⟨by omega, by omega, by omega, ?_⟩
    rw [ha', hb', sliceN_replace_after t sugg.startIndex.toNat sugg.endIndex.toNat
      sugg.replacement (by omega) (by omega) s.startIndex.toNat s.endIndex.toNat
      (by omega)]
    exact sm
  · rw [if_neg hc, if_neg hc]
    have hbefore : s.endIndex ≤ sugg.startIndex := by
      rcases hd with h1 | h2
      · exact h1
      · exfalso; omega
    refine ⟨s0, slt, by omega, ?_⟩
    rw [sliceN_replace_before t sugg.startIndex.toNat sugg.endIndex.toNat
      sugg.replacement (by omega) (by omega) s.startIndex.toNat s.endIndex.toNat
      (by omega)]
    exact sm

theorem shift_preserves_disjoint (t : List Char) (sugg x y : Suggestion)
    (hsugg : SpanOK t sugg) (hx : SpanOK t x) (hy : SpanOK t y)
    (hdx : SpansDisjoint x sugg) (hdy : SpansDisjoint y sugg)
    (hxy : SpansDisjoint x y) :
    SpansDisjoint
      (shiftAfter sugg.startIndex
        ((sugg.replacement.length : Int) - (sugg.original.length : Int)) x)
      (shiftAfter sugg.startIndex
        ((sugg.replacement.length : Int) - (sugg.original.length : Int)) y) := by
  obtain ⟨e1, e2, l1, l2, hlen⟩ := spanOK_nat t sugg hsugg
  have hx1 := hx.2.1
  have hy1 := hy.2.1
  have hsugg1 := hsugg.2.1
  unfold SpansDisjoint at hxy hdx hdy ⊢
  simp only [shiftAfter_startIndex, shiftAfter_endIndex]
  split_ifs <;> omega

theorem apply_valid (st : EngineState) (sugg : Suggestion)
    (hV : Valid st.text st.suggestions) (hmem : sugg ∈ st.suggestions) :
    Valid (applySuggestion st sugg).1.text (applySuggestion st sugg).1.suggestions := by
  have hOK := hV.2.2 sugg hmem
  obtain ⟨htext, hsuggs⟩ := applySuggestion_fast st sugg hOK
  rw [htext, hsuggs]
  have hsym : Symmetric SpansDisjoint := fun x y h => h.symm
  have hdisj_from : ∀ x ∈ st.suggestions.filter (fun s => s.id != sugg.id),
      SpansDisjoint x sugg := by
    intro x hxf
    have hx := List.mem_filter.mp hxf
    have hne : x ≠ sugg := by
      intro he
      have h2 := hx.2
      rw [he] at h2
      simp at h2
    exact List.Pairwise.forall hsym hV.2.1 hx.1 hmem hne
  refine ⟨?_, ?_, ?_⟩
  · rw [List.map_map]
    have hcomp : ((fun s : Suggestion => s.id) ∘ shiftAfter sugg.startIndex
        ((sugg.replacement.length : Int) - (sugg.original.length : Int))) =
        (fun s : Suggestion => s.id) := funext fun (s : Suggestion) => shiftAfter_id _ _ s
    rw [hcomp]
    exact ((List.filter_sublist _).map (fun s : Suggestion => s.id)).nodup hV.1
  · rw [List.pairwise_map]
    have hpair : (st.suggestions.filter (fun s => s.id != sugg.id)).Pairwise SpansDisjoint :=
      hV.2.1.sublist (List.filter_sublist _)
    refine hpair.imp_of_mem ?_
    intro x y hxm hym hxy
    exact shift_preserves_disjoint st.text sugg x y hOK
      (hV.2.2 x (List.mem_filter.mp hxm).1) (hV.2.2 y (List.mem_filter.mp hym).1)
      (hdisj_from x hxm) (hdisj_from y hym) hxy
  · intro s' hs'
    obtain ⟨x, hxm, rfl⟩ := List.mem_map.mp hs'
    exact shift_preserves_spanOK st.text sugg x hOK
      (hV.2.2 x (List.mem_filter.mp hxm).1) (hdisj_from x hxm)

theorem apply_ids (st : EngineState) (sugg : Suggestion)
    (hV : Valid st.text st.suggestions) (hmem : sugg ∈ st.suggestions) :
    ((applySuggestion st sugg).1.suggestions.map (fun s => s.id)).Perm
      ((st.suggestions.map (fun s => s.id)).erase sugg.id) := by
  have hOK := hV.2.2 sugg hmem
  obtain ⟨htext, hsuggs⟩ := applySuggestion_fast st sugg hOK
  rw [hsuggs, filter_id_ne_eq_erase _ _ hmem hV.1, List.map_map]
  have hcomp : ((fun s : Suggestion => s.id) ∘ shiftAfter sugg.startIndex
      ((sugg.replacement.length : Int) - (sugg.original.length : Int))) =
      (fun s : Suggestion => s.id) := funext fun (s : Suggestion) => shiftAfter_id _ _ s
  rw [hcomp]
  have h1 : st.suggestions.Perm (sugg :: st.suggestions.erase sugg) :=
    List.perm_cons_erase hmem
  have h2 := (h1.map (fun s => s.id)).erase sugg.id
  rw [List.map_cons, List.erase_cons_head] at h2
  exact h2.symm

theorem acceptAll_text_eq (st : EngineState) (hV : Valid st.text st.suggestions) :
    (acceptAllSuggestions st).1.text = canonicalText st := by
  by_cases hempty : st.suggestions.isEmpty
  · rw [List.isEmpty_iff] at hempty
    simp [acceptAllSuggestions, canonicalText, hempty, sortDesc, foldNEdits]
  · have hperm := sortDesc_perm st.suggestions
    have hOK : ∀ s ∈ sortDesc st.suggestions, SpanOK st.text s :=
      fun s hs => hV.2.2 s (hperm.subset hs)
    have hP := sortDesc_desc_disjoint st.text st.suggestions hV
    have hfold := foldAccept_eq (sortDesc st.suggestions) st.text hOK hP
    unfold acceptAllSuggestions canonicalText
    rw [if_neg (by simpa using hempty)]
    simpa using hfold

theorem shiftAfter_replacement (a d : Int) (s : Suggestion) :
    (shiftAfter a d s).replacement = s.replacement := by
  unfold shiftAfter
  split <;> rfl

theorem foldNEdits_append (t : List Char) (A B : List NEdit) :
    foldNEdits t (A ++ B) = foldNEdits (foldNEdits t A) B := by
  simp [foldNEdits, List.foldl_append]

theorem apply_canonical (st : EngineState) (sugg : Suggestion)
    (hV : Valid st.text st.suggestions) (hmem : sugg ∈ st.suggestions) :
    canonicalText (applySuggestion st sugg).1 = canonicalText st := by
  have hOK := hV.2.2 sugg hmem
  obtain ⟨htext, hsuggs⟩ := applySuggestion_fast st sugg hOK
  obtain ⟨e1, e2, l1, l2, hlen⟩ := spanOK_nat st.text sugg hOK
  have hsugglt := hOK.2.1
  have hpermD : (sortDesc st.suggestions).Perm st.suggestions := sortDesc_perm _
  have hmemD : sugg ∈ sortDesc st.suggestions := hpermD.mem_iff.mpr hmem
  obtain ⟨H, T, hHT⟩ := List.append_of_mem hmemD
  have hOKD : ∀ s ∈ sortDesc st.suggestions, SpanOK st.text s :=
    fun s hs => hV.2.2 s (hpermD.subset hs)
  have hdescD := sortDesc_desc_disjoint st.text st.suggestions hV
  have hnodup : st.suggestions.Nodup := hV.1.of_map
  have hnodupD : (sortDesc st.suggestions).Nodup := hpermD.nodup_iff.mpr hnodup
  rw [hHT] at hpermD hOKD hdescD hnodupD
  have happ := List.pairwise_append.mp hdescD
  have hHfacts : ∀ x ∈ H, sugg.endIndex ≤ x.startIndex :=
    fun x hx => happ.2.2 x hx sugg (List.mem_cons_self _ _)
  have hTfacts : ∀ y ∈ T, y.endIndex ≤ sugg.startIndex :=
    fun y hy => (List.pairwise_cons.mp happ.2.1).1 y hy
  have hOKH : ∀ x ∈ H, SpanOK st.text x :=
    fun x hx => hOKD x (List.mem_append_left _ hx)
  have hOKT : ∀ y ∈ T, SpanOK st.text y :=
    fun y hy => hOKD y (List.mem_append_right _ (List.mem_cons_of_mem _ hy))
  have hsuggnotH : sugg ∉ H :=
    fun hin => List.disjoint_of_nodup_append hnodupD hin (List.mem_cons_self _ _)
  have hDerase : (H ++ sugg :: T).erase sugg = H ++ T := by
    rw [List.erase_append_right _ hsuggnotH, List.erase_cons_head]
  have hpermRem : (st.suggestions.erase sugg).Perm (H ++ T) := by
    have h2 := (hpermD.symm.erase sugg)
    rw [hDerase] at h2
    exact h2
  have hshiftT : ∀ y ∈ T,
      shiftAfter sugg.startIndex
        ((sugg.replacement.length : Int) - (sugg.original.length : Int)) y = y := by
    intro y hy
    have hT := hTfacts y hy
    have hy' := (hOKT y hy).2.1
    unfold shiftAfter
    rw [if_neg (by omega)]
  have hmapT : T.map (shiftAfter sugg.startIndex
      ((sugg.replacement.length : Int) - (sugg.original.length : Int))) = T := by
    have h : T.map (shiftAfter sugg.startIndex
        ((sugg.replacement.length : Int) - (sugg.original.length : Int))) = T.map id :=
      List.map_congr_left (fun a ha => by rw [hshiftT a ha]; rfl)
    rw [h, List.map_id]
  have hfe : st.suggestions.filter (fun s => s.id != sugg.id) =
      st.suggestions.erase sugg := filter_id_ne_eq_erase _ _ hmem hV.1
  have hVnew := apply_valid st sugg hV hmem
  rw [htext, hsuggs, hfe] at hVnew
  have hXperm : ((st.suggestions.erase sugg).map (shiftAfter sugg.startIndex
      ((sugg.replacement.length : Int) - (sugg.original.length : Int)))).Perm
      (H.map (shiftAfter sugg.startIndex
        ((sugg.replacement.length : Int) - (sugg.original.length : Int))) ++ T) := by
    have h := hpermRem.map (shiftAfter sugg.startIndex
      ((sugg.replacement.length : Int) - (sugg.original.length : Int)))
    rw [List.map_append, hmapT] at h
    exact h
  have hsorted1 : (sortDesc ((st.suggestions.erase sugg).map
      (shiftAfter sugg.startIndex
        ((sugg.replacement.length : Int) - (sugg.original.length : Int))))).Pairwise
      (fun x y => y.startIndex < x.startIndex) :=
    desc_disjoint_strict _ _
      (fun s hs => hVnew.2.2 s ((sortDesc_perm _).subset hs))
      (sortDesc_desc_disjoint _ _ hVnew)
  have hstrictD : (H ++ sugg :: T).Pairwise (fun x y => y.startIndex < x.startIndex) :=
    desc_disjoint_strict _ _ hOKD hdescD
  have hsplit := List.pairwise_append.mp hstrictD
  have hstrictH := hsplit.1
  have hstrictT := (List.pairwise_cons.mp hsplit.2.1).2
  have hsorted2 : (H.map (shiftAfter sugg.startIndex
      ((sugg.replacement.length : Int) - (sugg.original.length : Int))) ++ T).Pairwise
      (fun x y => y.startIndex < x.startIndex) := by
    rw [List.pairwise_append]
    refine ⟨?_, hstrictT, ?_⟩
    · rw [List.pairwise_map]
      refine hstrictH.imp_of_mem ?_
      intro x y hx hy hxy
      have hxs := hHfacts x hx
      have hys := hHfacts y hy
      rw [shiftAfter_startIndex, shiftAfter_startIndex,
        if_pos (by omega), if_pos (by omega)]
      omega
    · intro x' hx' y hy
      obtain ⟨x, hx, rfl⟩ := List.mem_map.mp hx'
      have hxs := hHfacts x hx
      have hyT := hTfacts y hy
      have hyOK := (hOKT y hy).2.1
      rw [shiftAfter_startIndex, if_pos (by omega)]
      omega
  have hsortX : sortDesc ((st.suggestions.erase sugg).map
      (shiftAfter sugg.startIndex
        ((sugg.replacement.length : Int) - (sugg.original.length : Int)))) =
      H.map (shiftAfter sugg.startIndex
        ((sugg.replacement.length : Int) - (sugg.original.length : Int))) ++ T :=
    perm_sorted_strict_eq _ _ ((sortDesc_perm _).trans hXperm) hsorted1 hsorted2
  have hHmapcond : ∀ e ∈ H.map toNEdit, sugg.endIndex.toNat ≤ e.a ∧ e.a ≤ e.b ∧
      e.b ≤ st.text.length := by
    intro e he
    obtain ⟨x, hx, rfl⟩ := List.mem_map.mp he
    obtain ⟨x1, x2, x3, x4, x5⟩ := spanOK_nat st.text x (hOKH x hx)
    have hxs := hHfacts x hx
    simp only [toNEdit]
    omega
  have hHmappair : (H.map toNEdit).Pairwise (fun u v => v.b ≤ u.a) := by
    rw [List.pairwise_map]
    refine happ.1.imp_of_mem ?_
    intro x y hx hy hxy
    obtain ⟨x1, x2, x3, x4, x5⟩ := spanOK_nat st.text x (hOKH x hx)
    obtain ⟨y1, y2, y3, y4, y5⟩ := spanOK_nat st.text y (hOKH y hy)
    simp only [toNEdit]
    omega
  have hfc := fold_comm sugg.startIndex.toNat sugg.endIndex.toNat sugg.replacement
    (by omega) (H.map toNEdit) st.text (by omega) hHmapcond hHmappair
  have hpoint : (H.map toNEdit).map
      (fun e => (⟨sugg.startIndex.toNat + sugg.replacement.length + (e.a - sugg.endIndex.toNat),
        sugg.startIndex.toNat + sugg.replacement.length + (e.b - sugg.endIndex.toNat),
        e.r⟩ : NEdit)) =
      (H.map (shiftAfter sugg.startIndex
        ((sugg.replacement.length : Int) - (sugg.original.length : Int)))).map toNEdit := by
    rw [List.map_map, List.map_map]
    apply List.map_congr_left
    intro x hx
    obtain ⟨x1, x2, x3, x4, x5⟩ := spanOK_nat st.text x (hOKH x hx)
    have hxs := hHfacts x hx
    have hc : x.startIndex > sugg.startIndex := by omega
    show (⟨sugg.startIndex.toNat + sugg.replacement.length +
        ((toNEdit x).a - sugg.endIndex.toNat),
      sugg.startIndex.toNat + sugg.replacement.length +
        ((toNEdit x).b - sugg.endIndex.toNat), (toNEdit x).r⟩ : NEdit) = _
    simp only [Function.comp_apply, toNEdit, NEdit.mk.injEq, shiftAfter_startIndex,
      shiftAfter_endIndex, shiftAfter_replacement, hc, if_true]
    refine ⟨by omega, by omega, trivial⟩
  have hstep1 : canonicalText (applySuggestion st sugg).1 =
      foldNEdits (applyNEdit st.text (toNEdit sugg))
        ((H.map (shiftAfter sugg.startIndex
          ((sugg.replacement.length : Int) - (sugg.original.length : Int)))).map toNEdit
          ++ T.map toNEdit) := by
    unfold canonicalText
    rw [htext, hsuggs, hfe, hsortX, List.map_append]
  rw [hstep1, foldNEdits_append, ← hpoint,
    show toNEdit sugg =
      (⟨sugg.startIndex.toNat, sugg.endIndex.toNat, sugg.replacement⟩ : NEdit) from rfl,
    ← hfc, ← foldNEdits_append]
  unfold canonicalText
  rw [hHT]
  congr 1
  simp [toNEdit, List.append_assoc]

theorem applyById_canonical (st : EngineState) (i : Nat)
    (hV : Valid st.text st.suggestions)
    (hidmem : i ∈ st.suggestions.map (fun s => s.id)) :
    Valid (applyById st i).text (applyById st i).suggestions ∧
    canonicalText (applyById st i) = canonicalText st ∧
    ((applyById st i).suggestions.map (fun s => s.id)).Perm
      ((st.suggestions.map (fun s => s.id)).erase i) := by
  obtain ⟨s0, hs0mem, hs0id⟩ := List.mem_map.mp hidmem
  have hfindsome : (st.suggestions.find? (fun s => s.id == i)).isSome :=
    List.find?_isSome.mpr ⟨s0, hs0mem, by simp [hs0id]⟩
  obtain ⟨s', hs'⟩ := Option.isSome_iff_exists.mp hfindsome
  have hs'mem := List.mem_of_find?_eq_some hs'
  have hs'id : s'.id = i := by
    have := List.find?_some hs'
    simpa using this
  unfold applyById
  rw [hs']
  exact ⟨apply_valid st s' hV hs'mem, apply_canonical st s' hV hs'mem,
    hs'id ▸ apply_ids st s' hV hs'mem⟩

theorem foldApply_canonical : ∀ (ids : List Nat) (st : EngineState),
    Valid st.text st.suggestions →
    ids.Perm (st.suggestions.map (fun s => s.id)) →
    (ids.foldl applyById st).text = canonicalText st := by
  intro ids
  induction ids with
  | nil =>
    intro st hV hperm
    have hmapnil : st.suggestions.map (fun s => s.id) = [] :=
      hperm.symm.eq_nil
    have hsn : st.suggestions = [] := by
      cases h : st.suggestions with
      | nil => rfl
      | cons a l => rw [h] at hmapnil; simp at hmapnil
    simp [canonicalText, hsn, sortDesc, foldNEdits]
  | cons i rest ih =>
    intro st hV hperm
    have hidmem : i ∈ st.suggestions.map (fun s => s.id) :=
      hperm.subset (List.mem_cons_self _ _)
    obtain ⟨hV', hcan, hids⟩ := applyById_canonical st i hV hidmem
    have hrest : rest.Perm ((applyById st i).suggestions.map (fun s => s.id)) := by
      have h2 := hperm.erase i
      rw [List.erase_cons_head] at h2
      exact h2.trans hids.symm
    rw [List.foldl_cons, ih (applyById st i) hV' hrest, hcan]

/-! ### Frame and branch characterisations of the remaining operations -/

theorem dismiss_char (st : EngineState) (sugg : Suggestion) :
    (dismissSuggestion st sugg).1.text = st.text ∧
    (dismissSuggestion st sugg).1.suggestions =
      st.suggestions.filter (fun s => s.id != sugg.id) := by
  unfold dismissSuggestion
  by_cases he : (st.suggestions.filter (fun s => s.id != sugg.id)).isEmpty <;>
    simp [he]

theorem applySuggestion_some (st : EngineState) (sugg : Suggestion) (a b : Int)
    (h : reanchor st.text sugg = some (a, b)) :
    (applySuggestion st sugg).1.text =
      jsSlice st.text 0 a ++ sugg.replacement ++ jsSliceFrom st.text b ∧
    (applySuggestion st sugg).1.suggestions =
      (st.suggestions.filter (fun s => s.id != sugg.id)).map
        (shiftAfter a
          ((sugg.replacement.length : Int) - (sugg.original.length : Int))) := by
  unfold applySuggestion
  rw [h]
  by_cases hempty : (st.suggestions.filter (fun s => s.id != sugg.id)).isEmpty
  · rw [List.isEmpty_iff] at hempty
    simp [hempty]
  · rw [List.isEmpty_iff] at hempty
    simp [hempty]

theorem apply_empty_branch (st : EngineState) (sugg : Suggestion) (a b : Int)
    (h : reanchor st.text sugg = some (a, b))
    (hrem : st.suggestions.filter (fun s => s.id != sugg.id) = []) :
    (applySuggestion st sugg).1.analysisPass = st.analysisPass + 1 ∧
    (applySuggestion st sugg).1.lastAnalyzedText = [] ∧
    (applySuggestion st sugg).2 =
      some ⟨(applySuggestion st sugg).1.text, Reason.post_accept⟩ := by
  unfold applySuggestion
  rw [h]
  simp [hrem]

theorem acceptAll_nonempty (st : EngineState) (h : st.suggestions ≠ []) :
    (acceptAllSuggestions st).2 =
      some ⟨(acceptAllSuggestions st).1.text, Reason.post_accept⟩ ∧
    (acceptAllSuggestions st).1.analysisPass = st.analysisPass + 1 ∧
    (acceptAllSuggestions st).1.suggestions = [] ∧
    (acceptAllSuggestions st).1.lastAnalyzedText = [] := by
  unfold acceptAllSuggestions
  rw [if_neg (by simpa [List.isEmpty_iff] using h)]
  simp

theorem setAnalyzingSafe_frame (ctx : RequestCtx) (st : EngineState) (v : Bool) :
    (setAnalyzingSafe ctx st v).text = st.text ∧
    (setAnalyzingSafe ctx st v).suggestions = st.suggestions ∧
    (setAnalyzingSafe ctx st v).overallScore = st.overallScore ∧
    (setAnalyzingSafe ctx st v).latestRunId = st.latestRunId := by
  unfold setAnalyzingSafe
  split <;> simp

theorem setAnalyzingSafe_stale (ctx : RequestCtx) (st : EngineState) (v : Bool)
    (h : ctx.runId ≠ st.latestRunId) : setAnalyzingSafe ctx st v = st := by
  unfold setAnalyzingSafe
  rw [if_neg (by simpa using h)]

theorem startAnalysis_ctx (st : EngineState) (t : List Char) (reason : Reason)
    (ctx : RequestCtx) (h : (startAnalysis st t reason).2 = some ctx) :
    ctx.strict = strictFlag st.analysisPass reason ∧
    ctx.textToAnalyze = t ∧ ctx.runId = st.latestRunId + 1 := by
  unfold startAnalysis at h
  by_cases he : (jsTrim t).isEmpty
  · rw [if_pos he] at h
    simp at h
  · rw [if_neg he] at h
    simp only [Option.some.injEq] at h
    rw [← h]
    exact ⟨rfl, rfl, rfl⟩

theorem startAnalysis_blank (st : EngineState) (t : List Char) (reason : Reason)
    (h : (jsTrim t).isEmpty) :
    (startAnalysis st t reason).1.stats = zeroStats ∧
    (startAnalysis st t reason).1.suggestions = [] ∧
    (startAnalysis st t reason).1.overallScore = 100 ∧
    (startAnalysis st t reason).1.isAnalyzing = false ∧
    (startAnalysis st t reason).2 = none := by
  unfold startAnalysis
  rw [if_pos h]
  exact ⟨rfl, rfl, rfl, rfl, rfl⟩

/-! ### The validation filter -/

theorem validFilter_bad_false (text : List Char) (s : RawSuggestion)
    (hbad : BadCandidate s) : validFilter text s = false := by
  unfold validFilter
  by_cases h1 : (!s.original.truthy || !s.replacement.truthy) = true
  · rw [if_pos h1]
  · rw [if_neg h1]
    by_cases h2 : (!s.original.isStr || !s.replacement.isStr) = true
    · rw [if_pos h2]
    · rw [if_neg h2]
      have hstr : s.original.isStr = true ∧ s.replacement.isStr = true := by
        constructor <;> · by_contra hx; simp [Bool.not_eq_true] at hx; simp [hx] at h2
      rcases hbad with hb | hb | hb
      · rw [hstr.1] at hb
        exact absurd hb (by simp)
      · rw [hstr.2] at hb
        exact absurd hb (by simp)
      · rw [if_pos hb]

theorem validFilter_true_facts (text : List Char) (s : RawSuggestion)
    (h : validFilter text s = true) :
    jsTrim s.original.asChars ≠ jsTrim s.replacement.asChars := by
  unfold validFilter at h
  by_cases h1 : (!s.original.truthy || !s.replacement.truthy) = true
  · rw [if_pos h1] at h
    exact absurd h (by simp)
  · rw [if_neg h1] at h
    by_cases h2 : (!s.original.isStr || !s.replacement.isStr) = true
    · rw [if_pos h2] at h
      exact absurd h (by simp)
    · rw [if_neg h2] at h
      by_cases h3 : jsTrim s.original.asChars = jsTrim s.replacement.asChars
      · rw [if_pos h3] at h
        exact absurd h (by simp)
      · exact h3

theorem mem_of_mem_enumFrom {α : Type} :
    ∀ (l : List α) (n : Nat) (p : Nat × α), p ∈ List.enumFrom n l → p.2 ∈ l := by
  intro l
  induction l with
  | nil => intro n p h; simp [List.enumFrom] at h
  | cons a t ih =>
    intro n p h
    rw [List.enumFrom] at h
    rcases List.mem_cons.mp h with rfl | h'
    · exact List.mem_cons_self _ _
    · exact List.mem_cons_of_mem _ (ih (n + 1) p h')

theorem validateSuggestions_trim_ne (raws : List RawSuggestion) (text : List Char)
    (s : Suggestion) (hs : s ∈ validateSuggestions raws text) :
    jsTrim s.original ≠ jsTrim s.replacement := by
  unfold validateSuggestions at hs
  obtain ⟨p, hmem, rfl⟩ := List.mem_map.mp hs
  have hraw : p.2 ∈ raws.filter (validFilter text) :=
    mem_of_mem_enumFrom _ 0 p hmem
  have hvf := (List.mem_filter.mp hraw).2
  exact validFilter_true_facts text p.2 hvf

theorem handleResponse_suggestions_ok (st : EngineState) (ctx : RequestCtx)
    (dataSuggs : Option (List RawSuggestion)) (dataScore : Option Int)
    (htext : st.text = ctx.textToAnalyze) (s : Suggestion)
    (hs : s ∈ (handleResponse st ctx (BackendResponse.ok dataSuggs dataScore)).suggestions) :
    s ∈ validateSuggestions (dataSuggs.getD []) ctx.textToAnalyze := by
  simp only [handleResponse] at hs
  rw [if_neg (by simp [htext])] at hs
  rw [(setAnalyzingSafe_frame _ _ _).2.1] at hs
  by_cases hstrict : ctx.strict
  · rw [if_pos hstrict] at hs
    exact (List.mem_filter.mp hs).1
  · rw [if_neg hstrict] at hs
    exact hs

theorem handleResponse_discard (st : EngineState) (ctx : RequestCtx)
    (resp : BackendResponse) (htext : st.text ≠ ctx.textToAnalyze) :
    (handleResponse st ctx resp).suggestions = st.suggestions ∧
    (handleResponse st ctx resp).overallScore = st.overallScore := by
  cases resp with
  | failure =>
    exact ⟨(setAnalyzingSafe_frame _ _ _).2.1, (setAnalyzingSafe_frame _ _ _).2.2.1⟩
  | ok dataSuggs dataScore =>
    simp only [handleResponse]
    rw [if_pos htext]
    exact ⟨(setAnalyzingSafe_frame _ _ _).2.1, (setAnalyzingSafe_frame _ _ _).2.2.1⟩

theorem jsRound_bounds (q : ℚ) (h0 : 0 ≤ q) (h1 : q ≤ 100) :
    0 ≤ jsRound q ∧ jsRound q ≤ 100 := by
  unfold jsRound
  constructor
  · have h2 : ((0 : Int) : ℚ) ≤ q + 1/2 := by push_cast; linarith
    exact Int.le_floor.mpr h2
  · have h2 : q + 1/2 < ((101 : Int) : ℚ) := by push_cast; linarith
    have h3 := Int.floor_lt.mpr h2
    omega

/-! ### Claim theorems -/

/-- Claim C1 (counterexample): the offset-validity invariant fails as stated.
In the concrete state over `"ab"` with two overlapping pending suggestions,
after `applySuggestion` of the first, the remaining pending suggestion's span
no longer matches its `original` case-insensitively (pending set nonempty). -/
theorem C1_offset_validity_cex :
    ((applySuggestion exC1st exC1s1).1.suggestions.all
      (fun s => toLowerL (jsSlice (applySuggestion exC1st exC1s1).1.text
        s.startIndex s.endIndex) == toLowerL s.original)) = false ∧
    (applySuggestion exC1st exC1s1).1.suggestions ≠ [] := by
  exact ⟨by decide, by decide⟩

/-- Claim C1 (amended): after `dismissSuggestion` the invariant is preserved,
after `acceptAllSuggestions` the pending set is empty (so the invariant holds
vacuously), and after a successful `applySuggestion` every remaining pending
suggestion still matches its span case-insensitively provided the pending set
was pairwise non-overlapping with all spans matching beforehand; a remaining
suggestion overlapping the applied span can violate the invariant (see the
counterexample). -/
theorem C1_offset_validity_amended :
    (∀ (st : EngineState) (sugg : Suggestion),
      Valid st.text st.suggestions → sugg ∈ st.suggestions →
      ∀ s' ∈ (applySuggestion st sugg).1.suggestions,
        SpanOK (applySuggestion st sugg).1.text s') ∧
    (∀ (st : EngineState) (sugg : Suggestion),
      (∀ s ∈ st.suggestions, SpanOK st.text s) →
      ∀ s' ∈ (dismissSuggestion st sugg).1.suggestions,
        SpanOK (dismissSuggestion st sugg).1.text s') ∧
    (∀ st : EngineState, (acceptAllSuggestions st).1.suggestions = []) := by
  refine ⟨?_, ?_, ?_⟩
  · intro st sugg hV hmem s' hs'
    exact (apply_valid st sugg hV hmem).2.2 s' hs'
  · intro st sugg hOK s' hs'
    obtain ⟨ht, hsg⟩ := dismiss_char st sugg
    rw [hsg] at hs'
    rw [ht]
    exact hOK s' (List.mem_filter.mp hs').1
  · intro st
    unfold acceptAllSuggestions
    by_cases he : st.suggestions.isEmpty
    · rw [if_pos he]
      exact List.isEmpty_iff.mp he
    · rw [if_neg he]

/-- Claim C1 (witness): the amended invariant theorem applied to the concrete
valid two-suggestion state over `"abcdef"`. -/
theorem C1_offset_validity_witness :
    Valid wState.text wState.suggestions ∧
    SpanOK (applySuggestion wState wSugg1).1.text
      (⟨1, "style", "d".toList, "Y".toList, "reword", 5, 6⟩ : Suggestion) :=
  ⟨by decide,
   C1_offset_validity_amended.1 wState wSugg1 (by decide) (by decide) _ (by decide)⟩

/-- Claim C2 (counterexample): last-request-wins does not hold.  In the
concrete trace over text `"hi"`, request A (run id 1) is issued, then request
B (run id 2); B's response (no suggestions, score untouched) arrives first;
when A's response arrives last — even though its run id 1 is not the latest —
it still overwrites `pendingSuggestions` and `overallScore`. -/
theorem C2_stale_discard_cex :
    (startAnalysis exC2st0 "hi".toList Reason.manual).2 = some exC2ctxA ∧
    (startAnalysis exC2stA "hi".toList Reason.manual).2 = some exC2ctxB ∧
    exC2ctxA.runId ≠ exC2afterB.latestRunId ∧
    exC2afterB.suggestions = [] ∧
    exC2afterB.overallScore = 100 ∧
    exC2afterA.suggestions ≠ [] ∧
    exC2afterA.overallScore = 42 := by
  exact ⟨by decide, by decide, by decide, by decide, by decide, by decide, by decide⟩

/-- Claim C2 (amended): stale responses are discarded by text comparison, not
by request id.  A response mutates `pendingSuggestions`/`overallScore` only if
the live text still equals the text the request was issued for; the
monotonically increasing run id guards only the `isAnalyzing` flag. -/
theorem C2_stale_discard_amended :
    (∀ (st : EngineState) (ctx : RequestCtx) (resp : BackendResponse),
      st.text ≠ ctx.textToAnalyze →
      (handleResponse st ctx resp).suggestions = st.suggestions ∧
      (handleResponse st ctx resp).overallScore = st.overallScore) ∧
    (∀ (st : EngineState) (ctx : RequestCtx) (resp : BackendResponse),
      ctx.runId ≠ st.latestRunId →
      (handleResponse st ctx resp).isAnalyzing = st.isAnalyzing) := by
  constructor
  · intro st ctx resp h
    exact handleResponse_discard st ctx resp h
  · intro st ctx resp h
    cases resp with
    | failure =>
      show (setAnalyzingSafe ctx st false).isAnalyzing = _
      rw [setAnalyzingSafe_stale ctx st false h]
    | ok ds dsc =>
      simp only [handleResponse]
      by_cases ht : st.text ≠ ctx.textToAnalyze
      · rw [if_pos ht, setAnalyzingSafe_stale ctx st false h]
      · rw [if_neg ht, setAnalyzingSafe_stale ctx _ false (by simpa using h)]

/-- Claim C2 (witness): the amended discard rule applied to a concrete state
whose live text `"x"` differs from the request snapshot `"y"`. -/
theorem C2_stale_discard_witness :
    exC2w.text ≠ ("y".toList) ∧
    (handleResponse exC2w ⟨9, "y".toList, false⟩ BackendResponse.failure).suggestions
      = exC2w.suggestions ∧
    (handleResponse exC2w ⟨9, "y".toList, false⟩ BackendResponse.failure).overallScore
      = exC2w.overallScore :=
  ⟨by decide,
   (C2_stale_discard_amended.1 exC2w ⟨9, "y".toList, false⟩ BackendResponse.failure
     (by decide)).1,
   (C2_stale_discard_amended.1 exC2w ⟨9, "y".toList, false⟩ BackendResponse.failure
     (by decide)).2⟩

/-- Claim C3: batch accept-all determinism.  For any hook state whose pending
suggestions have distinct ids, pairwise non-overlapping spans, and spans that
case-insensitively match the document (so none can invalidate another), and
any order `ids` in which the user applies them one at a time (each click
applies the current pending suggestion with that id), the final document text
of the sequence of single applies equals the text produced by
`acceptAllSuggestions`, which processes suggestions in descending
`startIndex` order. -/
theorem C3_accept_all_determinism :
    ∀ st : EngineState, Valid st.text st.suggestions →
      ∀ ids : List Nat, ids.Perm (st.suggestions.map (fun s => s.id)) →
        (ids.foldl applyById st).text = (acceptAllSuggestions st).1.text := by
  intro st hV ids hperm
  rw [foldApply_canonical ids st hV hperm, acceptAll_text_eq st hV]

/-- Claim C3 (witness): the determinism theorem applied to the concrete
two-suggestion state over `"abcdef"`, applying in ascending-offset order
(the reverse of accept-all's order). -/
theorem C3_accept_all_determinism_witness :
    Valid wState.text wState.suggestions ∧
    ([0, 1].Perm (wState.suggestions.map (fun s => s.id))) ∧
    ([0, 1].foldl applyById wState).text = (acceptAllSuggestions wState).1.text :=
  ⟨by decide, by decide,
   C3_accept_all_determinism wState (by decide) [0, 1] (by decide)⟩

/-- Claim C4: single-apply offset shift.  When `applySuggestion` re-anchors a
suggestion to the span `[a, b)`, the new text is
`text[0:a] ++ replacement ++ text[b:]`; the remaining pending suggestions are
exactly the old ones (minus the applied id), where each with
`startIndex > a` has both offsets shifted by
`length(replacement) - length(original)` and each with `startIndex ≤ a` keeps
its span unchanged.  In the specification's example over `"abcdef"`, applying
`[0,1) -> "XXX"` shifts the second suggestion's span from `[3,4)` to `[5,6)`. -/
theorem C4_single_apply_offset_shift :
    (∀ (st : EngineState) (sugg : Suggestion) (a b : Int),
      reanchor st.text sugg = some (a, b) →
      (applySuggestion st sugg).1.text =
        jsSlice st.text 0 a ++ sugg.replacement ++ jsSliceFrom st.text b ∧
      (applySuggestion st sugg).1.suggestions =
        (st.suggestions.filter (fun s => s.id != sugg.id)).map
          (shiftAfter a
            ((sugg.replacement.length : Int) - (sugg.original.length : Int))) ∧
      (∀ s : Suggestion, s.startIndex ≤ a →
        shiftAfter a
          ((sugg.replacement.length : Int) - (sugg.original.length : Int)) s = s) ∧
      (∀ s : Suggestion, s.startIndex > a →
        (shiftAfter a
          ((sugg.replacement.length : Int) - (sugg.original.length : Int)) s).startIndex
            = s.startIndex +
              ((sugg.replacement.length : Int) - (sugg.original.length : Int)) ∧
        (shiftAfter a
          ((sugg.replacement.length : Int) - (sugg.original.length : Int)) s).endIndex
            = s.endIndex +
              ((sugg.replacement.length : Int) - (sugg.original.length : Int)))) ∧
    (applySuggestion exC4st exC4s1).1.suggestions =
      [⟨1, "grammar", "d".toList, "Y".toList, "m", 5, 6⟩] ∧
    (applySuggestion exC4st exC4s1).1.text = "XXXbcdef".toList := by
  refine ⟨?_, by decide, by decide⟩
  intro st sugg a b h
  obtain ⟨ht, hs⟩ := applySuggestion_some st sugg a b h
  refine ⟨ht, hs, ?_, ?_⟩
  · intro s hle
    unfold shiftAfter
    rw [if_neg (by omega)]
  · intro s hgt
    rw [shiftAfter_startIndex, shiftAfter_endIndex, if_pos hgt, if_pos hgt]
    exact ⟨rfl, rfl⟩

/-- Claim C4 (witness): the offset-shift theorem applied to the example state
over `"abcdef"` with the reanchored span `[0, 1)`. -/
theorem C4_single_apply_offset_shift_witness :
    reanchor exC4st.text exC4s1 = some (0, 1) ∧
    (applySuggestion exC4st exC4s1).1.text =
      jsSlice exC4st.text 0 0 ++ exC4s1.replacement ++ jsSliceFrom exC4st.text 1 :=
  ⟨by decide,
   (C4_single_apply_offset_shift.1 exC4st exC4s1 0 1 (by decide)).1⟩

theorem handleResponse_ok_suggestions (st : EngineState) (ctx : RequestCtx)
    (ds : Option (List RawSuggestion)) (dsc : Option Int)
    (htext : st.text = ctx.textToAnalyze) :
    (handleResponse st ctx (BackendResponse.ok ds dsc)).suggestions =
      if ctx.strict then
        (validateSuggestions (ds.getD []) ctx.textToAnalyze).filter
          (fun s => s.type != "style" && s.type != "clarity")
      else validateSuggestions (ds.getD []) ctx.textToAnalyze := by
  simp only [handleResponse]
  rw [if_neg (by simp [htext]), (setAnalyzingSafe_frame _ _ _).2.1]

theorem handleResponse_strict_types (st : EngineState) (ctx : RequestCtx)
    (ds : Option (List RawSuggestion)) (dsc : Option Int)
    (htext : st.text = ctx.textToAnalyze) (hstrict : ctx.strict = true)
    (s : Suggestion)
    (hs : s ∈ (handleResponse st ctx (BackendResponse.ok ds dsc)).suggestions) :
    s.type ≠ "style" ∧ s.type ≠ "clarity" := by
  rw [handleResponse_ok_suggestions st ctx ds dsc htext, if_pos hstrict] at hs
  have hcond := (List.mem_filter.mp hs).2
  constructor <;> (intro he; rw [he] at hcond; simp at hcond)

/-- Claim C5: convergence via strictness.  A nonempty accept-all, and a single
apply that empties the pending set, both increment the strictness counter and
schedule a `post_accept` re-analysis; the strict flag of an analysis pass with
reason `post_accept` is always set; every issued request carries exactly the
flag `strictFlag analysisPass reason`; and a strict pass never places a
suggestion of type `style` or `clarity` into the pending set (it filters them,
so starting from a pending set free of them — in particular the empty set left
by an acceptance cycle — none appear). -/
theorem C5_convergence_strictness :
    (∀ st : EngineState, st.suggestions ≠ [] →
      (acceptAllSuggestions st).2 =
        some ⟨(acceptAllSuggestions st).1.text, Reason.post_accept⟩ ∧
      (acceptAllSuggestions st).1.analysisPass = st.analysisPass + 1 ∧
      (acceptAllSuggestions st).1.suggestions = []) ∧
    (∀ (st : EngineState) (sugg : Suggestion) (a b : Int),
      reanchor st.text sugg = some (a, b) →
      st.suggestions.filter (fun s => s.id != sugg.id) = [] →
      (applySuggestion st sugg).1.analysisPass = st.analysisPass + 1 ∧
      (applySuggestion st sugg).2 =
        some ⟨(applySuggestion st sugg).1.text, Reason.post_accept⟩) ∧
    (∀ pass : Nat, strictFlag pass Reason.post_accept = true) ∧
    (∀ (st : EngineState) (t : List Char) (reason : Reason) (ctx : RequestCtx),
      (startAnalysis st t reason).2 = some ctx →
      ctx.strict = strictFlag st.analysisPass reason) ∧
    (∀ (st : EngineState) (ctx : RequestCtx) (resp : BackendResponse),
      ctx.strict = true →
      (∀ s ∈ st.suggestions, s.type ≠ "style" ∧ s.type ≠ "clarity") →
      ∀ s ∈ (handleResponse st ctx resp).suggestions,
        s.type ≠ "style" ∧ s.type ≠ "clarity") := by
  refine ⟨?_, ?_, ?_, ?_, ?_⟩
  · intro st h
    have hres := acceptAll_nonempty st h
    exact ⟨hres.1, hres.2.1, hres.2.2.1⟩
  · intro st sugg a b h hrem
    have hres := apply_empty_branch st sugg a b h hrem
    exact ⟨hres.1, hres.2.2⟩
  · intro pass
    simp [strictFlag]
  · intro st t reason ctx h
    exact (startAnalysis_ctx st t reason ctx h).1
  · intro st ctx resp hstrict hclean s hs
    cases resp with
    | failure =>
      have hfr : (handleResponse st ctx BackendResponse.failure).suggestions =
          st.suggestions := (setAnalyzingSafe_frame _ _ _).2.1
      rw [hfr] at hs
      exact hclean s hs
    | ok ds dsc =>
      by_cases ht : st.text = ctx.textToAnalyze
      · exact handleResponse_strict_types st ctx ds dsc ht hstrict s hs
      · rw [(handleResponse_discard st ctx _ ht).1] at hs
        exact hclean s hs

/-- Claim C5 (witness): the strictness theorem applied to the concrete
two-suggestion state (nonempty accept-all) and to a strict response handling
for the state it leaves behind. -/
theorem C5_convergence_strictness_witness :
    wState.suggestions ≠ [] ∧
    (acceptAllSuggestions wState).2 =
      some ⟨(acceptAllSuggestions wState).1.text, Reason.post_accept⟩ ∧
    strictFlag 1 Reason.post_accept = true :=
  ⟨by decide, (C5_convergence_strictness.1 wState (by decide)).1,
   C5_convergence_strictness.2.2.1 1⟩

/-- Claim C6: no-op filtering at validation.  Any raw candidate whose
`original` or `replacement` is missing or not a string, or whose trimmed
`original` equals its trimmed `replacement`, is rejected by the validation
filter; consequently every suggestion produced by validation — and every
suggestion a fresh response stores into the pending set — has trimmed
`original` different from trimmed `replacement`. -/
theorem C6_noop_filtering :
    (∀ (text : List Char) (s : RawSuggestion), BadCandidate s →
      validFilter text s = false) ∧
    (∀ (raws : List RawSuggestion) (text : List Char) (s : Suggestion),
      s ∈ validateSuggestions raws text →
      jsTrim s.original ≠ jsTrim s.replacement) ∧
    (∀ (st : EngineState) (ctx : RequestCtx) (ds : Option (List RawSuggestion))
      (dsc : Option Int) (s : Suggestion), st.text = ctx.textToAnalyze →
      s ∈ (handleResponse st ctx (BackendResponse.ok ds dsc)).suggestions →
      jsTrim s.original ≠ jsTrim s.replacement) := by
  refine ⟨validFilter_bad_false, validateSuggestions_trim_ne, ?_⟩
  intro st ctx ds dsc s htext hs
  exact validateSuggestions_trim_ne _ _ s
    (handleResponse_suggestions_ok st ctx ds dsc htext s hs)

/-- Claim C6 (witness): the filter rejects a concrete trim-equal candidate,
and the concrete validated suggestion built from a good candidate has
different trimmed sides. -/
theorem C6_noop_filtering_witness :
    validFilter "ab".toList exC6bad = false ∧
    jsTrim (⟨0, "grammar", "hi".toList, "Hi".toList, "Suggestion from AI", 0, 2⟩ :
      Suggestion).original ≠
      jsTrim (⟨0, "grammar", "hi".toList, "Hi".toList, "Suggestion from AI", 0, 2⟩ :
        Suggestion).replacement :=
  ⟨C6_noop_filtering.1 "ab".toList exC6bad (by decide),
   C6_noop_filtering.2.1 [exC2raw] "hi".toList _ (by decide)⟩

/-- Claim C7 (counterexample): dismissing the last remaining suggestion does
not increment the strictness counter, and the re-analysis it schedules is
tagged `manual`, not as a strict/post-accept pass (its strict flag computes to
`false` at strictness 0). -/
theorem C7_empty_via_dismiss_cex :
    (dismissSuggestion exC7st exC7s).1.suggestions = [] ∧
    exC7st.analysisPass = 0 ∧
    (dismissSuggestion exC7st exC7s).1.analysisPass = 0 ∧
    (dismissSuggestion exC7st exC7s).2 = some ⟨"ab".toList, Reason.manual⟩ ∧
    Reason.manual ≠ Reason.post_accept ∧
    strictFlag (dismissSuggestion exC7st exC7s).1.analysisPass Reason.manual
      = false := by
  exact ⟨by decide, by decide, by decide, by decide, by decide, by decide⟩

/-- Claim C7 (amended): emptying the pending set through a successful single
apply increments `strictnessLevel`, clears `lastAnalyzedText` and schedules an
immediate re-analysis tagged `post_accept` (hence strict); emptying it through
a dismiss only clears `lastAnalyzedText` and schedules an immediate
re-analysis tagged `manual`, without incrementing strictness. -/
theorem C7_empty_pending_amended :
    (∀ (st : EngineState) (sugg : Suggestion) (a b : Int),
      reanchor st.text sugg = some (a, b) →
      st.suggestions.filter (fun s => s.id != sugg.id) = [] →
      (applySuggestion st sugg).1.analysisPass = st.analysisPass + 1 ∧
      (applySuggestion st sugg).1.lastAnalyzedText = [] ∧
      (applySuggestion st sugg).2 =
        some ⟨(applySuggestion st sugg).1.text, Reason.post_accept⟩) ∧
    (∀ (st : EngineState) (sugg : Suggestion),
      st.suggestions.filter (fun s => s.id != sugg.id) = [] →
      (dismissSuggestion st sugg).1.analysisPass = st.analysisPass ∧
      (dismissSuggestion st sugg).1.lastAnalyzedText = [] ∧
      (dismissSuggestion st sugg).2 = some ⟨st.text, Reason.manual⟩) := by
  constructor
  · intro st sugg a b h hrem
    exact apply_empty_branch st sugg a b h hrem
  · intro st sugg hrem
    unfold dismissSuggestion
    rw [hrem]
    simp

/-- Claim C7 (witness): the amended theorem applied to concrete one-suggestion
states for both the apply path and the dismiss path. -/
theorem C7_empty_pending_witness :
    (applySuggestion exC7st exC7s).1.analysisPass = 1 ∧
    (dismissSuggestion exC7st exC7s).2 = some ⟨exC7st.text, Reason.manual⟩ := by
  refine ⟨?_, (C7_empty_pending_amended.2 exC7st exC7s (by decide)).2.2⟩
  have h := (C7_empty_pending_amended.1 exC7st exC7s 0 1 (by decide) (by decide)).1
  rw [h]
  decide

/-- Claim C8: applying an unlocatable suggestion is atomic.  If the text at
the recorded span does not case-insensitively match the suggestion's
`original` and the case-insensitive first-occurrence search also fails, the
suggestion is removed from the pending set while the document text, the other
pending suggestions (spans included), the stats, the score, the accepted-edit
memory and the strictness counter are all unchanged, and no re-analysis is
scheduled. -/
theorem C8_unlocatable_apply_atomic :
    ∀ (st : EngineState) (sugg : Suggestion),
      toLowerL (jsSlice st.text sugg.startIndex sugg.endIndex) ≠
        toLowerL sugg.original →
      firstIdx (toLowerL st.text) (toLowerL sugg.original) = none →
      (applySuggestion st sugg).1.text = st.text ∧
      (applySuggestion st sugg).1.suggestions =
        st.suggestions.filter (fun s => s.id != sugg.id) ∧
      (applySuggestion st sugg).1.analysisPass = st.analysisPass ∧
      (applySuggestion st sugg).1.acceptedEdits = st.acceptedEdits ∧
      (applySuggestion st sugg).1.lastAnalyzedText = st.lastAnalyzedText ∧
      (applySuggestion st sugg).1.overallScore = st.overallScore ∧
      (applySuggestion st sugg).1.stats = st.stats ∧
      (applySuggestion st sugg).2 = none := by
  intro st sugg h1 h2
  have hre : reanchor st.text sugg = none := by
    unfold reanchor
    rw [if_neg h1, h2]
  unfold applySuggestion
  rw [hre]
  exact ⟨rfl, rfl, rfl, rfl, rfl, rfl, rfl, rfl⟩

/-- Claim C8 (witness): the atomicity theorem applied to the concrete state
over `"xyz"` whose first suggestion ("q") occurs nowhere in the text. -/
theorem C8_unlocatable_apply_witness :
    (applySuggestion exC8st exC8s).1.text = exC8st.text ∧
    (applySuggestion exC8st exC8s).1.suggestions = [exC8s2] ∧
    (applySuggestion exC8st exC8s).2 = none := by
  have h := C8_unlocatable_apply_atomic exC8st exC8s (by decide) (by decide)
  exact ⟨h.1, by rw [h.2.1]; decide, h.2.2.2.2.2.2.2⟩

/-- Claim C9: `calculateStats` is total with a readability score always
clamped into `[0, 100]`; for blank text the analysis entry point special-cases
the state to all-zero stats (readability 0 included), no suggestions, score
100 and no backend request; and the special case is needed because feeding the
empty text to the formula itself would produce
`round (clamp 0 100 (100 - 0 - 0 + 50)) = 100`, not 0. -/
theorem C9_empty_text_stats :
    (∀ t : List Char, 0 ≤ (calculateStats t).readabilityScore ∧
      (calculateStats t).readabilityScore ≤ 100) ∧
    (∀ (st : EngineState) (t : List Char) (reason : Reason),
      (jsTrim t).isEmpty →
      (startAnalysis st t reason).1.stats = zeroStats ∧
      (startAnalysis st t reason).1.suggestions = [] ∧
      (startAnalysis st t reason).1.overallScore = 100 ∧
      (startAnalysis st t reason).2 = none) ∧
    (calculateStats []).readabilityScore = 100 := by
  refine ⟨?_, ?_, ?_⟩
  · intro t
    exact jsRound_bounds _ (le_max_left _ _) (max_le (by norm_num) (min_le_left _ _))
  · intro st t reason h
    have hres := startAnalysis_blank st t reason h
    exact ⟨hres.1, hres.2.1, hres.2.2.1, hres.2.2.2.2⟩
  · show jsRound (max 0 (min 100 (100 - 0 * (3/2) - 0 * 5 + 50))) = 100
    have h1 : (100 : ℚ) - 0 * (3/2) - 0 * 5 + 50 = 150 := by norm_num
    rw [h1, min_eq_left (by norm_num : (100:ℚ) ≤ 150),
      max_eq_right (by norm_num : (0:ℚ) ≤ 100)]
    unfold jsRound
    apply Int.floor_eq_iff.mpr
    constructor <;> norm_num

/-- Claim C9 (witness): the stats theorem applied to a blank analysis request
and to the concrete text `"x"`. -/
theorem C9_empty_text_stats_witness :
    (startAnalysis exC9st [] Reason.typing).1.stats = zeroStats ∧
    0 ≤ (calculateStats "x".toList).readabilityScore :=
  ⟨(C9_empty_text_stats.2.1 exC9st [] Reason.typing (by decide)).1,
   (C9_empty_text_stats.1 "x".toList).1⟩

/-- Claim C10: dismiss is a pure removal.  For every state and suggestion,
`dismissSuggestion` leaves the document text, the stats, the overall score,
the accepted-edit memory, the analyzing flag, the run id and the strictness
counter unchanged, and its resulting pending set is exactly the old one with
the suggestions carrying the dismissed id filtered out — every other pending
suggestion is retained with identical span and contents. -/
theorem C10_dismiss_frame :
    ∀ (st : EngineState) (sugg : Suggestion),
      (dismissSuggestion st sugg).1.text = st.text ∧
      (dismissSuggestion st sugg).1.stats = st.stats ∧
      (dismissSuggestion st sugg).1.overallScore = st.overallScore ∧
      (dismissSuggestion st sugg).1.analysisPass = st.analysisPass ∧
      (dismissSuggestion st sugg).1.acceptedEdits = st.acceptedEdits ∧
      (dismissSuggestion st sugg).1.isAnalyzing = st.isAnalyzing ∧
      (dismissSuggestion st sugg).1.latestRunId = st.latestRunId ∧
      (dismissSuggestion st sugg).1.suggestions =
        st.suggestions.filter (fun s => s.id != sugg.id) := by
  intro st sugg
  unfold dismissSuggestion
  by_cases he : (st.suggestions.filter (fun s => s.id != sugg.id)).isEmpty <;>
    simp [he]

end WR
